import Mathlib

/-!
Verification of the caching and validation core of the `quantec` EasyData
client library.

The development shallowly embeds the two modules that the specification
covers:

* `src/quantec/easydata/cache.py` — `CacheManager.generate_key`,
  `CacheManager.normalize_dimension_filters`, `CacheManager.read`,
  `CacheManager.write`, `CacheManager.clear`;
* `src/quantec/easydata/validators.py` — `validate_dimension_filter`.

Pure Python functions become Lean functions (`hashlib.md5` is embedded as
a full executable MD5 over `Nat` bytes); fallible operations return
`Except`; filesystem state is passed explicitly; the aliasing behaviour of
`normalize_dimension_filters` is additionally modelled over an explicit
heap of Python objects to settle the non-mutation claim.
-/

namespace Quantec

/-! ## MD5 (embedding of Python's `hashlib.md5(...).hexdigest()`) -/

/-- Encoding of a single Unicode code point as UTF-8 byte values
(models Python's `str.encode()`, which defaults to UTF-8). -/
def utf8Bytes (c : Nat) : List Nat :=
  if c < 0x80 then [c]
  else if c < 0x800 then
    [0xC0 + c / 0x40, 0x80 + c % 0x40]
  else if c < 0x10000 then
    [0xE0 + c / 0x1000, 0x80 + c / 0x40 % 0x40, 0x80 + c % 0x40]
  else
    [0xF0 + c / 0x40000, 0x80 + c / 0x1000 % 0x40, 0x80 + c / 0x40 % 0x40,
     0x80 + c % 0x40]

/-- Byte sequence of the UTF-8 encoding of a string (models `s.encode()`). -/
def strBytes (s : String) : List Nat :=
  s.data.flatMap fun c => utf8Bytes c.toNat

/-- Constants `K[0..63]` of MD5 (RFC 1321). -/
def md5K : List Nat :=
  [0xd76aa478, 0xe8c7b756, 0x242070db, 0xc1bdceee,
   0xf57c0faf, 0x4787c62a, 0xa8304613, 0xfd469501,
   0x698098d8, 0x8b44f7af, 0xffff5bb1, 0x895cd7be,
   0x6b901122, 0xfd987193, 0xa679438e, 0x49b40821,
   0xf61e2562, 0xc040b340, 0x265e5a51, 0xe9b6c7aa,
   0xd62f105d, 0x02441453, 0xd8a1e681, 0xe7d3fbc8,
   0x21e1cde6, 0xc33707d6, 0xf4d50d87, 0x455a14ed,
   0xa9e3e905, 0xfcefa3f8, 0x676f02d9, 0x8d2a4c8a,
   0xfffa3942, 0x8771f681, 0x6d9d6122, 0xfde5380c,
   0xa4beea44, 0x4bdecfa9, 0xf6bb4b60, 0xbebfbc70,
   0x289b7ec6, 0xeaa127fa, 0xd4ef3085, 0x04881d05,
   0xd9d4d039, 0xe6db99e5, 0x1fa27cf8, 0xc4ac5665,
   0xf4292244, 0x432aff97, 0xab9423a7, 0xfc93a039,
   0x655b59c3, 0x8f0ccc92, 0xffeff47d, 0x85845dd1,
   0x6fa87e4f, 0xfe2ce6e0, 0xa3014314, 0x4e0811a1,
   0xf7537e82, 0xbd3af235, 0x2ad7d2bb, 0xeb86d391]

/-- Rotation amounts `s[0..63]` of MD5 (RFC 1321). -/
def md5S : List Nat :=
  [7, 12, 17, 22, 7, 12, 17, 22, 7, 12, 17, 22, 7, 12, 17, 22,
   5,  9, 14, 20, 5,  9, 14, 20, 5,  9, 14, 20, 5,  9, 14, 20,
   4, 11, 16, 23, 4, 11, 16, 23, 4, 11, 16, 23, 4, 11, 16, 23,
   6, 10, 15, 21, 6, 10, 15, 21, 6, 10, 15, 21, 6, 10, 15, 21]

/-- Left rotation of a 32-bit quantity over `Nat` (inputs below `2 ^ 32`). -/
def rotl32 (x c : Nat) : Nat :=
  ((x <<< c) % 2 ^ 32) ||| (x >>> (32 - c))

/-- Bitwise complement within 32 bits. -/
def not32 (x : Nat) : Nat := 0xffffffff ^^^ x

/-- Padding step of MD5: append `0x80`, zero bytes to reach 56 mod 64,
then the bit length as a 64-bit little-endian quantity. -/
def md5Pad (msg : List Nat) : List Nat :=
  let len := msg.length
  let zeros := (120 - (len + 1) % 64) % 64
  let bitLen := (8 * len) % 2 ^ 64
  msg ++ [0x80] ++ List.replicate zeros 0 ++
    (List.range 8).map fun i => bitLen >>> (8 * i) % 256

/-- Splitting a list into successive 64-byte chunks; the fuel bounds the
recursion depth and is sufficient whenever it is at least the list
length. -/
def md5ChunksAux : Nat → List Nat → List (List Nat)
  | 0, _ => []
  | _, [] => []
  | fuel + 1, b :: rest =>
    (b :: rest).take 64 :: md5ChunksAux fuel ((b :: rest).drop 64)

/-- Splitting a padded message into its 64-byte chunks. -/
def md5Chunks (l : List Nat) : List (List Nat) :=
  md5ChunksAux l.length l

/-- Decoding of a 64-byte chunk into 16 little-endian 32-bit words. -/
def leWords : List Nat → List Nat
  | b0 :: b1 :: b2 :: b3 :: rest =>
    (b0 + 0x100 * b1 + 0x10000 * b2 + 0x1000000 * b3) :: leWords rest
  | _ => []

/-- Single MD5 round operation on state `(a, b, c, d)` for round index `i`
with message words `m`. -/
def md5Step (m : List Nat) (st : Nat × Nat × Nat × Nat) (i : Nat) :
    Nat × Nat × Nat × Nat :=
  let (a, b, c, d) := st
  let (f, g) :=
    if i < 16 then ((b &&& c) ||| (not32 b &&& d), i)
    else if i < 32 then ((d &&& b) ||| (not32 d &&& c), (5 * i + 1) % 16)
    else if i < 48 then (b ^^^ c ^^^ d, (3 * i + 5) % 16)
    else (c ^^^ (b ||| not32 d), 7 * i % 16)
  let f := (f + a + md5K.getD i 0 + m.getD g 0) % 2 ^ 32
  (d, (b + rotl32 f (md5S.getD i 0)) % 2 ^ 32, b, c)

/-- Processing of one 64-byte chunk, updating the four MD5 state words. -/
def md5Chunk (st : Nat × Nat × Nat × Nat) (chunk : List Nat) :
    Nat × Nat × Nat × Nat :=
  let m := leWords chunk
  let (a, b, c, d) := (List.range 64).foldl (md5Step m) st
  let (a0, b0, c0, d0) := st
  ((a0 + a) % 2 ^ 32, (b0 + b) % 2 ^ 32, (c0 + c) % 2 ^ 32, (d0 + d) % 2 ^ 32)

/-- Digest of a byte sequence as the four final MD5 state words. -/
def md5Words (msg : List Nat) : Nat × Nat × Nat × Nat :=
  (md5Chunks (md5Pad msg)).foldl md5Chunk
    (0x67452301, 0xefcdab89, 0x98badcfe, 0x10325476)

/-- Lowercase hexadecimal digit for a value below 16. -/
def hexDigit (n : Nat) : Char :=
  "0123456789abcdef".data.getD n '0'

/-- Two-digit lowercase hex rendering of a byte. -/
def byteHex (b : Nat) : String :=
  String.mk [hexDigit (b / 16), hexDigit (b % 16)]

/-- Little-endian hex rendering of a 32-bit word, byte by byte. -/
def wordLEHex (w : Nat) : String :=
  byteHex (w % 0x100) ++ byteHex (w / 0x100 % 0x100) ++
    byteHex (w / 0x10000 % 0x100) ++ byteHex (w / 0x1000000 % 0x100)

/-- Embedding of `hashlib.md5(s.encode()).hexdigest()`: the 32-character
lowercase hexadecimal MD5 digest of the UTF-8 encoding of `s`. -/
def md5Hex (s : String) : String :=
  let (a, b, c, d) := md5Words (strBytes s)
  wordLEHex a ++ wordLEHex b ++ wordLEHex c ++ wordLEHex d

namespace CacheManager

/-- Embedding of `CacheManager.generate_key` (`cache.py`, lines 49–67).
The Python function receives arbitrary positional values and first maps
each through `str`; the embedding receives the list of those string
representations directly.  `hash_input` is their separator-free
concatenation (`"".join`). -/
def generate_key (args : List String) (debug : Bool) : String :=
  let hash_input := String.join args
  if debug then "debug_" ++ (md5Hex hash_input).take 8
  else md5Hex hash_input

end CacheManager

/-! ## Filter normalization (`CacheManager.normalize_dimension_filters`)

Validated dimension filters are dictionaries whose recognised keys are
`dimension` (a string, always present after validation), `levels` (a list
of integers), `codes` (a list of strings), `children` and
`children_include_self` (booleans); each of the last four may be absent.
`normalize_dimension_filters` re-keys every filter to exactly these keys,
so unrecognised keys never influence its output and are not modelled. -/

/-- Code-point lexicographic comparison of character lists; this is
Python's string ordering, used by `sorted` on strings. -/
def lexLe : List Char → List Char → Bool
  | [], _ => true
  | _ :: _, [] => false
  | a :: as, b :: bs =>
    if a.toNat < b.toNat then true
    else if b.toNat < a.toNat then false
    else lexLe as bs

/-- Ordering of strings by code points (Python `<=` on `str`). -/
def strLe (a b : String) : Prop := lexLe a.data b.data = true

instance : DecidableRel strLe := fun a b =>
  instDecidableEqBool (lexLe a.data b.data) true

/-- Shape of a validated dimension-filter dictionary: the five recognised
keys, each of the last four possibly absent. -/
structure NFilter where
  dimension : String
  levels : Option (List Int) := none
  codes : Option (List String) := none
  children : Option Bool := none
  children_include_self : Option Bool := none
deriving DecidableEq

/-- Four-digit lowercase hex rendering of a value below `0x10000`. -/
def hex4 (n : Nat) : String :=
  String.mk [hexDigit (n / 0x1000 % 16), hexDigit (n / 0x100 % 16),
    hexDigit (n / 16 % 16), hexDigit (n % 16)]

/-- Escaping of one character exactly as Python's `json.dumps` does with
its default `ensure_ascii=True`: printable ASCII other than quote and
backslash is literal, the short escapes cover the usual control
characters, every other character becomes `\uXXXX` (a surrogate pair
beyond the BMP). -/
def escChar (c : Char) : String :=
  if c = '"' then "\\\""
  else if c = '\\' then "\\\\"
  else if 0x20 ≤ c.toNat ∧ c.toNat ≤ 0x7e then String.mk [c]
  else if c.toNat = 8 then "\\b"
  else if c.toNat = 9 then "\\t"
  else if c.toNat = 10 then "\\n"
  else if c.toNat = 12 then "\\f"
  else if c.toNat = 13 then "\\r"
  else if c.toNat < 0x10000 then "\\u" ++ hex4 c.toNat
  else
    let v := c.toNat - 0x10000
    "\\u" ++ hex4 (0xd800 + v / 0x400) ++ "\\u" ++ hex4 (0xdc00 + v % 0x400)

/-- JSON rendering of a string (quote, escape each character). -/
def jsonStr (s : String) : String :=
  "\"" ++ String.join (s.data.map escChar) ++ "\""

/-- JSON rendering of a list from already-rendered elements, with the
compact `","` separator of `json.dumps(..., separators=(",", ":"))`. -/
def jsonList (elems : List String) : String :=
  "[" ++ String.intercalate "," elems ++ "]"

/-- JSON rendering of a boolean. -/
def jsonBool (b : Bool) : String := if b then "true" else "false"

/-- JSON rendering of an integer (decimal, possibly signed). -/
def jsonInt (i : Int) : String := toString i

/-- Serialization of one normalized filter dictionary as `json.dumps`
renders it with `sort_keys=True` and separators `(",", ":")`: present
keys appear in lexicographic key order `children`,
`children_include_self`, `codes`, `dimension`, `levels`. -/
def dumpNFilter (f : NFilter) : String :=
  let entries :=
    (match f.children with
      | some b => [jsonStr "children" ++ ":" ++ jsonBool b]
      | none => []) ++
    (match f.children_include_self with
      | some b => [jsonStr "children_include_self" ++ ":" ++ jsonBool b]
      | none => []) ++
    (match f.codes with
      | some cs => [jsonStr "codes" ++ ":" ++ jsonList (cs.map jsonStr)]
      | none => []) ++
    [jsonStr "dimension" ++ ":" ++ jsonStr f.dimension] ++
    (match f.levels with
      | some ls => [jsonStr "levels" ++ ":" ++ jsonList (ls.map jsonInt)]
      | none => [])
  "\x7b" ++ String.intercalate "," entries ++ "\x7d"

/-- First normalization step of a single filter (`cache.py`, lines
90–100): `codes`, when present and non-empty (an empty list is falsy in
Python, so it is left as is), is sorted lexicographically.  Python's
`sorted` is a stable sort, which `List.insertionSort` models exactly. -/
def normalizeCodes (f : NFilter) : NFilter :=
  match f.codes with
  | some cs =>
    if cs.isEmpty then f else { f with codes := some (cs.insertionSort strLe) }
  | none => f

/-- Second normalization step of a single filter: `levels`, when present
and non-empty (Python truthiness), is sorted ascending. -/
def normalizeLevels (f : NFilter) : NFilter :=
  match f.levels with
  | some ls =>
    if ls.isEmpty then f
    else { f with levels := some (ls.insertionSort (fun a b : Int => a ≤ b)) }
  | none => f

/-- Normalization of a single filter: both steps in the source's order. -/
def normalizeFilter (f : NFilter) : NFilter :=
  normalizeLevels (normalizeCodes f)

/-- Ordering of normalized filters used by
`normalized_filters.sort(key=lambda x: x["dimension"])`. -/
def filterLe (f g : NFilter) : Prop := strLe f.dimension g.dimension

instance : DecidableRel filterLe := fun f g =>
  instDecidableEqBool (lexLe f.dimension.data g.dimension.data) true

namespace CacheManager

/-- Embedding of `CacheManager.normalize_dimension_filters` (`cache.py`,
lines 69–114) on a list of validated filters (the single-dict overload is
the singleton list): normalize each filter, sort the list stably by
`dimension`, and serialize as a compact JSON array.  Python's stable
`list.sort` is modelled by `List.insertionSort`. -/
def normalize_dimension_filters (input : List NFilter) : String :=
  let normalized := input.map normalizeFilter
  let sortedFilters := normalized.insertionSort filterLe
  jsonList (sortedFilters.map dumpNFilter)

end CacheManager

/-- Sorting transform applied by `normalizeCodes` seen at the `Option`
level (closed form used in proofs). -/
def sortOptStr : Option (List String) → Option (List String)
  | some cs => some (if cs.isEmpty then cs else cs.insertionSort strLe)
  | none => none

/-- Sorting transform applied by `normalizeLevels` seen at the `Option`
level (closed form used in proofs). -/
def sortOptInt : Option (List Int) → Option (List Int)
  | some ls =>
    some (if ls.isEmpty then ls else ls.insertionSort (fun a b : Int => a ≤ b))
  | none => none

/-- Relation between optional lists: both absent, or both present with
contents that are permutations of each other. -/
def OptPerm {α : Type} : Option (List α) → Option (List α) → Prop
  | none, none => True
  | some a, some b => a.Perm b
  | _, _ => False

instance {α : Type} [DecidableEq α] :
    ∀ a b : Option (List α), Decidable (OptPerm a b)
  | none, none => .isTrue trivial
  | some a, some b => List.decidablePerm a b
  | none, some _ => .isFalse fun h => h
  | some _, none => .isFalse fun h => h

/-- Relation between two validated filters that agree on `dimension` and
both flags, while their `codes` lists and their `levels` lists are
permutations of each other (or jointly absent). -/
def SimilarNFilter (f g : NFilter) : Prop :=
  f.dimension = g.dimension ∧ f.children = g.children ∧
    f.children_include_self = g.children_include_self ∧
    OptPerm f.codes g.codes ∧ OptPerm f.levels g.levels

instance (f g : NFilter) : Decidable (SimilarNFilter f g) := by
  unfold SimilarNFilter; infer_instance

/-! ## Dimension-filter validation (`validate_dimension_filter`)

The validator receives an arbitrary dictionary, so its embedding works on
untyped Python values.  The function only ever reads the five recognised
keys, so a filter dictionary is modelled by those five optional slots. -/

/-- Untyped Python value as far as the validator can observe one. -/
inductive PyVal where
  | str (s : String)
  | int (n : Int)
  | bool (b : Bool)
  | list (elems : List PyVal)
  | none_

/-- Python `isinstance(x, int)`; `bool` is a subclass of `int` in Python,
so booleans count as integers. -/
def isIntInstance : PyVal → Bool
  | .int _ => true
  | .bool _ => true
  | _ => false

/-- Python `isinstance(x, str)`. -/
def isStrInstance : PyVal → Bool
  | .str _ => true
  | _ => false

/-- The fixed list of valid dimension identifiers
(`validators.py`, line 27). -/
def valid_dimensions : List String := ["d1", "d2", "d3", "d4", "d5", "d6", "d7"]

/-- Membership test `dimension in valid_dimensions`: Python `in` compares
with `==`, and only a `str` can equal a `str`. -/
def isValidDimension : PyVal → Bool
  | .str s => valid_dimensions.contains s
  | _ => false

/-- Python `str()` of a value as interpolated into the invalid-dimension
error message: exact for the scalar cases; the rendering of a list value
is abstracted (no claim depends on that message's text). -/
def pyStr : PyVal → String
  | .str s => s
  | .int n => toString n
  | .bool b => if b then "True" else "False"
  | .none_ => "None"
  | .list _ => "[...]"

/-- Error message of the final `else` branch (`validators.py`,
lines 81–88). -/
def invalidCombinationMessage : String :=
  "Invalid filter combination. Supported patterns:\n" ++
    "1. codes only: \x7b'codes': ['CODE1', ...]\x7d\n" ++
    "2. levels only: \x7b'levels': [1, 2, ...]\x7d\n" ++
    "3. codes and levels: \x7b'codes': ['CODE1'], 'levels': [1, 2]\x7d\n" ++
    "4. single code with children: \x7b'codes': ['CODE1'], 'children': True\x7d\n" ++
    "5. single code with children_include_self: \x7b'codes': ['CODE1'], 'children_include_self': True\x7d"

/-- Dedicated error message for the nothing-provided case
(`validators.py`, line 79). -/
def atLeastOneMessage : String :=
  "At least one of 'codes', 'levels', 'children', or 'children_include_self' must be provided"

/-- Dictionary passed to the validator, restricted to the five keys the
function reads (`.get` with a default models absence). -/
structure FilterDict where
  dimension : Option PyVal := none
  codes : Option PyVal := none
  levels : Option PyVal := none
  children : Option PyVal := none
  children_include_self : Option PyVal := none

/-- Embedding of `validate_dimension_filter` (`validators.py`, lines
6–88) on a dictionary value: `.error msg` models `raise ValueError(msg)`,
`.ok ()` models returning normally.  The checks run in source order:
required `dimension` key, membership in `valid_dimensions`, `isinstance`
checks for `codes` / `levels` / `children` / `children_include_self`,
integer elements of a non-empty (truthy) `levels`, then the five accepted
combinations. -/
def validate_dimension_filter (fd : FilterDict) : Except String Unit :=
  match fd.dimension with
  | none => .error "Dimension filter must include 'dimension' field"
  | some dimension =>
    if ¬ isValidDimension dimension then
      .error ("Dimension must be one of ['d1', 'd2', 'd3', 'd4', 'd5', 'd6', 'd7'], got '"
        ++ pyStr dimension ++ "'")
    else
      match fd.codes.getD (.list []) with
      | .list codes =>
        match fd.levels.getD (.list []) with
        | .list levels =>
          match fd.children.getD (.bool false) with
          | .bool children =>
            match fd.children_include_self.getD (.bool false) with
            | .bool children_include_self =>
              if ¬ levels.isEmpty ∧ ¬ levels.all isIntInstance then
                .error "All items in 'levels' must be integers"
              else if codes.length > 0 ∧ levels.length = 0 ∧
                  children = false ∧ children_include_self = false then
                .ok ()
              else if codes.length = 0 ∧ levels.length > 0 ∧
                  children = false ∧ children_include_self = false then
                .ok ()
              else if codes.length > 0 ∧ levels.length > 0 ∧
                  children = false ∧ children_include_self = false then
                .ok ()
              else if codes.length = 1 ∧ levels.length = 0 ∧
                  children = true ∧ children_include_self = false then
                .ok ()
              else if codes.length = 1 ∧ levels.length = 0 ∧
                  children = false ∧ children_include_self = true then
                .ok ()
              else if codes.length = 0 ∧ levels.length = 0 ∧
                  children = false ∧ children_include_self = false then
                .error atLeastOneMessage
              else
                .error invalidCombinationMessage
            | _ => .error "'children_include_self' must be a boolean"
          | _ => .error "'children' must be a boolean"
        | _ => .error "'levels' must be a list"
      | _ => .error "'codes' must be a list"

/-- Shape 1 of the acceptance table: codes only, non-empty. -/
def shapeCodesOnly (codes levels : List PyVal) (ch cis : Bool) : Prop :=
  codes.length > 0 ∧ levels.length = 0 ∧ ch = false ∧ cis = false

/-- Shape 2: levels only, non-empty. -/
def shapeLevelsOnly (codes levels : List PyVal) (ch cis : Bool) : Prop :=
  codes.length = 0 ∧ levels.length > 0 ∧ ch = false ∧ cis = false

/-- Shape 3: codes and levels both non-empty. -/
def shapeCodesLevels (codes levels : List PyVal) (ch cis : Bool) : Prop :=
  codes.length > 0 ∧ levels.length > 0 ∧ ch = false ∧ cis = false

/-- Shape 4: exactly one code with `children = true`. -/
def shapeChildren (codes levels : List PyVal) (ch cis : Bool) : Prop :=
  codes.length = 1 ∧ levels.length = 0 ∧ ch = true ∧ cis = false

/-- Shape 5: exactly one code with `children_include_self = true`. -/
def shapeChildrenSelf (codes levels : List PyVal) (ch cis : Bool) : Prop :=
  codes.length = 1 ∧ levels.length = 0 ∧ ch = false ∧ cis = true

/-- Disjunction of the five accepted shapes. -/
def someShape (codes levels : List PyVal) (ch cis : Bool) : Prop :=
  shapeCodesOnly codes levels ch cis ∨ shapeLevelsOnly codes levels ch cis ∨
    shapeCodesLevels codes levels ch cis ∨ shapeChildren codes levels ch cis ∨
    shapeChildrenSelf codes levels ch cis

/-- Exactly one of the five accepted shapes holds. -/
def exactlyOneShape (codes levels : List PyVal) (ch cis : Bool) : Prop :=
  (shapeCodesOnly codes levels ch cis ∧ ¬ shapeLevelsOnly codes levels ch cis ∧
    ¬ shapeCodesLevels codes levels ch cis ∧ ¬ shapeChildren codes levels ch cis ∧
    ¬ shapeChildrenSelf codes levels ch cis) ∨
  (¬ shapeCodesOnly codes levels ch cis ∧ shapeLevelsOnly codes levels ch cis ∧
    ¬ shapeCodesLevels codes levels ch cis ∧ ¬ shapeChildren codes levels ch cis ∧
    ¬ shapeChildrenSelf codes levels ch cis) ∨
  (¬ shapeCodesOnly codes levels ch cis ∧ ¬ shapeLevelsOnly codes levels ch cis ∧
    shapeCodesLevels codes levels ch cis ∧ ¬ shapeChildren codes levels ch cis ∧
    ¬ shapeChildrenSelf codes levels ch cis) ∨
  (¬ shapeCodesOnly codes levels ch cis ∧ ¬ shapeLevelsOnly codes levels ch cis ∧
    ¬ shapeCodesLevels codes levels ch cis ∧ shapeChildren codes levels ch cis ∧
    ¬ shapeChildrenSelf codes levels ch cis) ∨
  (¬ shapeCodesOnly codes levels ch cis ∧ ¬ shapeLevelsOnly codes levels ch cis ∧
    ¬ shapeCodesLevels codes levels ch cis ∧ ¬ shapeChildren codes levels ch cis ∧
    shapeChildrenSelf codes levels ch cis)

/-! ## Cache store (`CacheManager.read`, `write`, `clear`)

The filesystem under the cache root is explicit state: regular files are
an association list from relative paths (lists of components) to opaque
content strings, directories a list of paths, plus a flag for the root
directory itself.  I/O faults that depend on the environment rather than
on this state (permission errors, torn reads) are injected through
oracle records, universally quantified in the theorems; `raise` is the
`.error` of an `Except`, and a `try/except` is the corresponding
`match`. -/

/-- Filesystem state under the cache root directory. -/
structure FS where
  rootExists : Bool
  files : List (List String × String)
  dirs : List (List String)

/-- Content of the regular file at `p`, if one exists. -/
def FS.fileAt (fs : FS) (p : List String) : Option String :=
  (fs.files.find? fun e => e.1 == p).map (·.2)

/-- Python `path.exists()`: true for a regular file or a directory. -/
def FS.pathExists (fs : FS) (p : List String) : Bool :=
  (fs.fileAt p).isSome || fs.dirs.contains p

/-- Replacement or insertion of a file entry (what a successful
`write_text` / `write_bytes` does). -/
def upsertFile : List (List String × String) → List String → String →
    List (List String × String)
  | [], p, c => [(p, c)]
  | e :: rest, p, c =>
    if e.1 == p then (p, c) :: rest else e :: upsertFile rest p c

/-- Store `content` at path `p`. -/
def FS.putFile (fs : FS) (p : List String) (content : String) : FS :=
  { fs with files := upsertFile fs.files p content }

/-- Embedding of `CacheManager._cache_path` (`cache.py`, lines 32–47):
`Path(cache_dir) / f"{cache_key}.{ext}"`, as a path relative to the cache
root.  The joined file name is modelled as a single component (the keys
the library produces are hex digests, free of path separators). -/
def cache_path (cache_key ext : String) : List String :=
  [cache_key ++ "." ++ ext]

/-- Resolution of the extension in `read`: `ext = api_format or
return_format` — Python `or` falls through on an empty (falsy) string. -/
def resolveExt (return_format : String) (api_format : Option String) : String :=
  match api_format with
  | some s => if s = "" then return_format else s
  | none => s!"{return_format}"

/-- Environment-dependent faults injected into one `read` call. -/
structure ReadOracle where
  readFails : Bool := false

/-- Payload returned from the cache: raw text, parsed JSON, raw bytes, or
a dataframe; the JSON and dataframe types stay abstract. -/
inductive Payload (J D : Type) where
  | text (s : String)
  | json (j : J)
  | bytes (b : String)
  | dataframe (d : D)

namespace CacheManager

/-- Embedding of `CacheManager.read` (`cache.py`, lines 116–164).
`jsonLoads` models `json.loads`, `readCsvDf` / `readParquetDf` model
`pd.read_csv` / `pd.read_parquet` applied to the file's content, and
`dropNullCols` models `.dropna(axis=1, how="all")`; all four stay
abstract (universally quantified in the theorems).  Reading the content
of an existing path can fail through the oracle (I/O fault, or the path
is a directory); each `try/except` of the source is the `match` that
collapses `.error` to `none`.  The final `return None` covers unknown
return formats. -/
def read {J D : Type} (jsonLoads : String → Except String J)
    (readCsvDf readParquetDf : String → Except String D)
    (dropNullCols : D → D) (fs : FS) (o : ReadOracle)
    (cache_key return_format : String) (api_format : Option String) :
    Except String (Option (Payload J D)) :=
  let ext := resolveExt return_format api_format
  let path := cache_path cache_key ext
  if ¬ fs.pathExists path then .ok none
  else
    let read_content : Except String String :=
      if o.readFails then .error "io failure"
      else
        match fs.fileAt path with
        | some c => .ok c
        | none => .error "IsADirectoryError"
    if return_format = "csv" then
      .ok (match read_content with
        | .ok t => some (.text t)
        | .error _ => none)
    else if return_format = "json" then
      .ok (match read_content.bind jsonLoads with
        | .ok j => some (.json j)
        | .error _ => none)
    else if return_format = "parquet" then
      .ok (match read_content with
        | .ok b => some (.bytes b)
        | .error _ => none)
    else if return_format = "dataframe" then
      let apiLower := (match api_format with | some s => s | none => "").toLower
      .ok (match read_content.bind
          (fun c => if apiLower = "parquet" then readParquetDf c else readCsvDf c)
          with
        | .ok df => some (.dataframe (dropNullCols df))
        | .error _ => none)
    else
      .ok none

end CacheManager

/-- Environment-dependent faults injected into one `write` call. -/
structure WriteOracle where
  mkdirFails : Bool := false
  writeFails : Bool := false

/-- Body of the `try` block of `write` (`cache.py`, lines 184–189):
`mkdir(parents=True, exist_ok=True)` on the parent (the cache root), then
the content written verbatim (`write_bytes` for `parquet`, `write_text`
otherwise — the payload is opaque either way).  An `.error` carries the
state reached when the fault hit. -/
def writeAttempt (fs : FS) (o : WriteOracle) (cache_key api_format content : String) :
    Except (String × FS) FS :=
  if o.mkdirFails then .error ("mkdir failed", fs)
  else
    let fs₁ := { fs with rootExists := true }
    if o.writeFails then .error ("write failed", fs₁)
    else .ok (fs₁.putFile (cache_path cache_key api_format) content)

namespace CacheManager

/-- Embedding of `CacheManager.write` (`cache.py`, lines 166–191): the
whole body is one `try/except Exception` whose handler only logs at
debug severity, so every fault is swallowed and the call returns
normally with whatever state the fault left behind. -/
def write (fs : FS) (o : WriteOracle) (cache_key api_format content : String) :
    Except String FS :=
  match writeAttempt fs o cache_key api_format content with
  | .ok fs' => .ok fs'
  | .error (_, fsAtFailure) => .ok fsAtFailure

end CacheManager

/-- Per-path unlink faults injected into one `clear` call. -/
structure ClearOracle where
  unlinkFails : List String → Bool

/-- Oracle under which no unlink fails. -/
def noFailClear : ClearOracle := ⟨fun _ => false⟩

/-- First pass of `clear`: every regular file beneath the root is
unlinked, successes counted, failures logged and skipped; returns the
remaining files and the count. -/
def unlinkPass (o : ClearOracle) (files : List (List String × String)) :
    List (List String × String) × Nat :=
  files.foldl
    (fun acc e =>
      if o.unlinkFails e.1 then (acc.1 ++ [e], acc.2) else (acc.1, acc.2 + 1))
    ([], 0)

/-- Whether directory `d` still contains a file or another directory
(strict prefix test on path components). -/
def dirNonEmpty (files : List (List String × String))
    (dirs : List (List String)) (d : List String) : Bool :=
  files.any (fun e => d ≠ e.1 && d.isPrefixOf e.1) ||
    dirs.any (fun d2 => d ≠ d2 && d.isPrefixOf d2)

/-- One `rmdir` attempt: the directory is removed when empty, otherwise
the `OSError` is ignored. -/
def rmdirStep (files : List (List String × String))
    (cur : List (List String)) (d : List String) : List (List String) :=
  if dirNonEmpty files (cur.filter (fun d2 => d2 ≠ d)) d then cur
  else cur.filter (fun d2 => d2 ≠ d)

/-- Processing order of the second pass: `sorted(glob, reverse=True)` —
reverse lexicographic on the path strings, which puts every directory
before its parent. -/
def revLexOrder (dirs : List (List String)) : List (List String) :=
  dirs.insertionSort fun a b =>
    strLe (String.intercalate "/" b) (String.intercalate "/" a)

/-- Embedding of `CacheManager.clear` (`cache.py`, lines 193–224):
return 0 when the root does not exist; otherwise unlink every regular
file beneath the root (counting successes, skipping per-file failures),
then attempt to remove now-empty directories deepest-first (failures
ignored); the returned count is the number of files deleted. -/
def clearImpl (fs : FS) (o : ClearOracle) : FS × Nat :=
  if fs.rootExists = false then (fs, 0)
  else
    let (kept, deleted) := unlinkPass o fs.files
    let dirs' := (revLexOrder fs.dirs).foldl (rmdirStep kept) fs.dirs
    ({ fs with files := kept, dirs := dirs' }, deleted)

namespace CacheManager

/-- Alias matching the source method name. -/
def clear (fs : FS) (o : ClearOracle) : FS × Nat := clearImpl fs o

end CacheManager

/-- Sequence of `write` calls (key, format, content), each with the
no-fault oracle; `write` always returns `.ok`, and the `.error` case is
unreachable. -/
def writeAll (fs : FS) (ws : List (String × String × String)) : FS :=
  ws.foldl
    (fun fs w =>
      match CacheManager.write fs ⟨false, false⟩ w.1 w.2.1 w.2.2 with
      | .ok fs' => fs'
      | .error _ => fs)
    fs

/-- Path of the file a `write` call creates. -/
def writePath (w : String × String × String) : List String :=
  cache_path w.1 w.2.1

/-! ## Heap model of `normalize_dimension_filters`

To settle the frame claim — the function mutates neither its input
dictionaries nor the `codes` / `levels` lists inside them — the function
is embedded a second time over an explicit heap of Python objects:
dictionaries and lists hold references, `dict.copy()` and `sorted(...)`
allocate fresh objects, and the one mutating operation of the source,
`normalized["codes"] = ...` / `normalized["levels"] = ...`, is a store
to the (freshly allocated) copy's address.  The theorem then shows every
address allocated before the call maps to an unchanged object after
it. -/

/-- Python object in the heap; lists and dictionaries hold addresses. -/
inductive PyObj where
  | ostr (s : String)
  | oint (n : Int)
  | obool (b : Bool)
  | olist (elems : List Nat)
  | odict (entries : List (String × Nat))
deriving DecidableEq

/-- Heap: allocated objects by address, and the next fresh address. -/
structure Heap where
  mem : List (Nat × PyObj)
  next : Nat

/-- Object stored at address `a`. -/
def Heap.get (h : Heap) (a : Nat) : Option PyObj :=
  (h.mem.find? fun e => e.1 == a).map (·.2)

/-- Allocation of a fresh object; its address is the old `h.next`. -/
def allocH (h : Heap) (v : PyObj) : Heap :=
  { mem := (h.next, v) :: h.mem, next := h.next + 1 }

/-- In-place replacement of the object at address `a`. -/
def Heap.setObj (h : Heap) (a : Nat) (v : PyObj) : Heap :=
  { h with mem := h.mem.map fun e => if e.1 == a then (a, v) else e }

/-- Entries of the dictionary at `a` (insertion-ordered), empty when the
address does not hold a dictionary. -/
def dictEntries (h : Heap) (a : Nat) : List (String × Nat) :=
  match h.get a with
  | some (.odict es) => es
  | _ => []

/-- Python `key in d` / `d[key]`: address of the value under `key`. -/
def dictLookup (h : Heap) (a : Nat) (k : String) : Option Nat :=
  ((dictEntries h a).find? fun e => e.1 == k).map (·.2)

/-- Entry update preserving insertion order (Python `d[k] = v`). -/
def upsertEntry : List (String × Nat) → String → Nat → List (String × Nat)
  | [], k, v => [(k, v)]
  | e :: rest, k, v =>
    if e.1 == k then (k, v) :: rest else e :: upsertEntry rest k v

/-- Python `d[k] = v` on the dictionary at address `a` (mutation). -/
def dictSet (h : Heap) (a : Nat) (k : String) (v : Nat) : Heap :=
  match h.get a with
  | some (.odict es) => h.setObj a (.odict (upsertEntry es k v))
  | _ => h

/-- Elements (addresses) of the list at `a`. -/
def listElems (h : Heap) (a : Nat) : List Nat :=
  match h.get a with
  | some (.olist es) => es
  | _ => []

/-- String value at `a` (referenced strings of a validated filter). -/
def strVal (h : Heap) (a : Nat) : String :=
  match h.get a with
  | some (.ostr s) => s
  | _ => ""

/-- Integer value at `a`. -/
def intVal (h : Heap) (a : Nat) : Int :=
  match h.get a with
  | some (.oint n) => n
  | _ => 0

/-- Python truthiness of the object at `a` (the normalizer tests it on
the `codes` / `levels` values: a list is truthy iff non-empty). -/
def truthyRef (h : Heap) (a : Nat) : Bool :=
  match h.get a with
  | some (.olist es) => !es.isEmpty
  | some (.odict es) => !es.isEmpty
  | some (.ostr s) => !s.isEmpty
  | some (.oint n) => n != 0
  | some (.obool b) => b
  | none => false

/-- Python `sorted` on a list of string objects: a new reference list,
stably ordered by the referenced string values. -/
def sortRefsByStr (h : Heap) (refs : List Nat) : List Nat :=
  refs.insertionSort fun a b => strLe (strVal h a) (strVal h b)

/-- Python `sorted` on a list of integer objects. -/
def sortRefsByInt (h : Heap) (refs : List Nat) : List Nat :=
  refs.insertionSort fun a b => intVal h a ≤ intVal h b

/-- One conditional sorting statement of the loop body (`cache.py`,
lines 95–96 for `codes`, 99–100 for `levels`): when `key` is present in
the copy at `nref` and its value truthy, `sorted(...)` allocates a fresh
list (at address `h.next`) and `normalized[key] = ...` stores it in the
copy. -/
def normSortStep (key : String) (sortRefs : Heap → List Nat → List Nat)
    (h : Heap) (nref : Nat) : Heap :=
  match dictLookup h nref key with
  | some cref =>
    if truthyRef h cref then
      dictSet (allocH h (.olist (sortRefs h (listElems h cref)))) nref key h.next
    else h
  | none => h

/-- Loop body of `normalize_dimension_filters` (`cache.py`, lines
90–108) for the filter at `fr`: `normalized = filter_dict.copy()` is a
fresh dictionary sharing the entry references, the two conditional sorts
mutate only that copy, and `ordered_filter` is a second fresh dictionary
re-keyed to the five recognised keys in fixed order.  Returns the new
heap and the address of `ordered_filter`. -/
def normHeapFilter (h : Heap) (fr : Nat) : Heap × Nat :=
  let nref := h.next
  let h₁ := allocH h (.odict (dictEntries h fr))
  let h₃ := normSortStep "levels" sortRefsByInt
    (normSortStep "codes" sortRefsByStr h₁ nref) nref
  let oentries :=
    ["dimension", "levels", "codes", "children", "children_include_self"].filterMap
      fun k => (dictLookup h₃ nref k).map fun v => (k, v)
  (allocH h₃ (.odict oentries), h₃.next)

/-- One iteration of the loop: normalize the filter and append the
`ordered_filter` address to `normalized_filters` (a list local to the
call, never part of the input, kept as a Lean-level accumulator). -/
def normStep (acc : Heap × List Nat) (fr : Nat) : Heap × List Nat :=
  ((normHeapFilter acc.1 fr).1, acc.2 ++ [(normHeapFilter acc.1 fr).2])

/-- The whole loop over the filter list. -/
def normAllFilters (h : Heap) (frs : List Nat) : Heap × List Nat :=
  frs.foldl normStep (h, [])

/-- Sort key `x["dimension"]` of a normalized filter (a validated filter
always has the key; the default covers only unreachable states). -/
def dimKeyOf (h : Heap) (a : Nat) : String :=
  match dictLookup h a "dimension" with
  | some dref => strVal h dref
  | none => ""

/-- Depth-bounded `json.dumps` of the object at an address with
`sort_keys=True` and compact separators; fuel 3 covers a validated
filter (dictionary → list → scalar). -/
def dumpHeapValue (h : Heap) : Nat → Nat → String
  | 0, _ => ""
  | fuel + 1, a =>
    match h.get a with
    | some (.ostr s) => jsonStr s
    | some (.oint n) => jsonInt n
    | some (.obool b) => jsonBool b
    | some (.olist es) => jsonList (es.map (dumpHeapValue h fuel))
    | some (.odict es) =>
      let sortedEs := es.insertionSort fun e1 e2 => strLe e1.1 e2.1
      "\x7b" ++ String.intercalate ","
        (sortedEs.map fun e => jsonStr e.1 ++ ":" ++ dumpHeapValue h fuel e.2) ++
        "\x7d"
    | none => "null"

/-- Sorting of the local result list by dimension and final
serialization (`cache.py`, lines 110–114). -/
def finishNorm (h : Heap) (frs : List Nat) : Heap × String :=
  let r := normAllFilters h frs
  let sorted := r.2.insertionSort fun a b => strLe (dimKeyOf r.1 a) (dimKeyOf r.1 b)
  (r.1, jsonList (sorted.map (dumpHeapValue r.1 3)))

/-- Heap-level embedding of `CacheManager.normalize_dimension_filters`
(`cache.py`, lines 69–114): a dictionary input is wrapped in a singleton
list, a list input is shallow-copied (`.copy()` allocates a fresh list
object sharing the element references) and then iterated. -/
def normalize_dimension_filters_heap (h : Heap) (input : Nat) : Heap × String :=
  match h.get input with
  | some (.odict _) => finishNorm h [input]
  | some (.olist es) => finishNorm (allocH h (.olist es)) es
  | _ => finishNorm h []

/-! ## Theorems -/

/-! Sanity anchors for the MD5 embedding: the RFC 1321 test vectors and a
non-ASCII input cross-checked against `hashlib.md5`. -/

theorem md5Hex_empty : md5Hex "" = "d41d8cd98f00b204e9800998ecf8427e" := by
  decide

theorem md5Hex_abc : md5Hex "abc" = "900150983cd24fb0d6963f7d28e17f72" := by
  decide

theorem md5Hex_nonAscii : md5Hex "é✓" = "7cb60204e92656d1f47b2d4d1fecfb2c" := by
  decide

/-- C1: for every argument list, `generate_key` with `debug = false`
returns exactly the hexadecimal MD5 digest of the separator-free
concatenation of the arguments' string representations, in call order,
and with `debug = true` returns `"debug_"` followed by the first 8 hex
characters of that same digest.  Both right-hand sides are functions of
the argument list alone, so the function is pure and deterministic: every
call with the same arguments returns the same string. -/
theorem generate_key_c1 (args : List String) :
    CacheManager.generate_key args false = md5Hex (String.join args) ∧
    CacheManager.generate_key args true =
      "debug_" ++ (md5Hex (String.join args)).take 8 := by
  constructor <;> rfl

theorem lexLe_total : ∀ as bs : List Char, lexLe as bs = true ∨ lexLe bs as = true
  | [], _ => by left; rfl
  | _ :: _, [] => by right; rfl
  | a :: as, b :: bs => by
    by_cases hab : a.toNat < b.toNat
    · left; simp [lexLe, hab]
    · by_cases hba : b.toNat < a.toNat
      · right; simp [lexLe, hba]
      · rcases lexLe_total as bs with h | h
        · left; simp [lexLe, hab, hba, h]
        · right; simp [lexLe, hab, hba, h]

theorem lexLe_trans : ∀ as bs cs : List Char,
    lexLe as bs = true → lexLe bs cs = true → lexLe as cs = true
  | [], _, _, _, _ => rfl
  | a :: as, [], cs, h₁, _ => by simp [lexLe] at h₁
  | a :: as, b :: bs, [], _, h₂ => by simp [lexLe] at h₂
  | a :: as, b :: bs, c :: cs, h₁, h₂ => by
    simp [lexLe, Char.toNat] at h₁ h₂ ⊢
    rcases h₁ with h₁ | ⟨hab, h₁⟩ <;> rcases h₂ with h₂ | ⟨hbc, h₂⟩
    · exact Or.inl (by omega)
    · exact Or.inl (by omega)
    · exact Or.inl (by omega)
    · exact Or.inr ⟨by omega, lexLe_trans as bs cs h₁ h₂⟩

theorem lexLe_antisymm : ∀ as bs : List Char,
    lexLe as bs = true → lexLe bs as = true → as = bs
  | [], [], _, _ => rfl
  | [], _ :: _, _, h₂ => by simp [lexLe] at h₂
  | _ :: _, [], h₁, _ => by simp [lexLe] at h₁
  | a :: as, b :: bs, h₁, h₂ => by
    simp [lexLe, Char.toNat] at h₁ h₂
    rcases h₁ with h₁ | ⟨hab, h₁⟩ <;> rcases h₂ with h₂ | ⟨hba, h₂⟩
    · exact ((by omega : False)).elim
    · exact ((by omega : False)).elim
    · exact ((by omega : False)).elim
    · have hv : a = b := Char.ext (UInt32.ext (by omega))
      rw [hv, lexLe_antisymm as bs h₁ h₂]

instance : IsTotal String strLe :=
  ⟨fun a b => lexLe_total a.data b.data⟩

instance : IsTrans String strLe :=
  ⟨fun a b c h₁ h₂ => lexLe_trans a.data b.data c.data h₁ h₂⟩

instance : IsAntisymm String strLe :=
  ⟨fun a b h₁ h₂ => by
    cases a; cases b
    exact congrArg String.mk (lexLe_antisymm _ _ h₁ h₂)⟩

theorem strLe_total (a b : String) : strLe a b ∨ strLe b a :=
  lexLe_total a.data b.data

theorem strLe_antisymm {a b : String} (h₁ : strLe a b) (h₂ : strLe b a) :
    a = b :=
  antisymm h₁ h₂

/-! Stable sorts of permuted inputs agree whenever the ordering is total,
transitive and antisymmetric; this together with `normalizeFilter`'s
congruence underlies the order-invariance claims. -/

theorem insertionSort_eq_of_perm {α : Type} (r : α → α → Prop) [DecidableRel r]
    [IsTotal α r] [IsTrans α r] [IsAntisymm α r] {l₁ l₂ : List α}
    (h : l₁.Perm l₂) : l₁.insertionSort r = l₂.insertionSort r :=
  List.eq_of_perm_of_sorted
    ((List.perm_insertionSort r l₁).trans
      (h.trans (List.perm_insertionSort r l₂).symm))
    (List.sorted_insertionSort r l₁) (List.sorted_insertionSort r l₂)

theorem normalizeFilter_eq (d : String) (ls : Option (List Int))
    (cs : Option (List String)) (ch cis : Option Bool) :
    normalizeFilter ⟨d, ls, cs, ch, cis⟩ =
      ⟨d, sortOptInt ls, sortOptStr cs, ch, cis⟩ := by
  rcases cs with _ | cs <;> rcases ls with _ | ls
  · rfl
  · by_cases hL : ls.isEmpty <;>
      simp [normalizeFilter, normalizeCodes, normalizeLevels, sortOptStr,
        sortOptInt, hL]
  · by_cases hE : cs.isEmpty <;>
      simp [normalizeFilter, normalizeCodes, normalizeLevels, sortOptStr,
        sortOptInt, hE]
  · by_cases hE : cs.isEmpty <;> by_cases hL : ls.isEmpty <;>
      simp [normalizeFilter, normalizeCodes, normalizeLevels, sortOptStr,
        sortOptInt, hE, hL]

theorem normalizeFilter_dimension (f : NFilter) :
    (normalizeFilter f).dimension = f.dimension := by
  rcases f with ⟨d, ls, cs, ch, cis⟩
  rw [normalizeFilter_eq]

theorem sortOptStr_congr : ∀ {a b : Option (List String)}, OptPerm a b →
    sortOptStr a = sortOptStr b
  | none, none, _ => rfl
  | some [], some [], _ => rfl
  | some [], some (_ :: _), h => by simpa using h.length_eq
  | some (_ :: _), some [], h => by simpa using h.length_eq
  | some (x :: xs), some (y :: ys), h => by
    simp only [sortOptStr, List.isEmpty_cons, if_neg Bool.false_ne_true,
      Option.some.injEq]
    exact insertionSort_eq_of_perm strLe h

theorem sortOptInt_congr : ∀ {a b : Option (List Int)}, OptPerm a b →
    sortOptInt a = sortOptInt b
  | none, none, _ => rfl
  | some [], some [], _ => rfl
  | some [], some (_ :: _), h => by simpa using h.length_eq
  | some (_ :: _), some [], h => by simpa using h.length_eq
  | some (x :: xs), some (y :: ys), h => by
    simp only [sortOptInt, List.isEmpty_cons, if_neg Bool.false_ne_true,
      Option.some.injEq]
    exact insertionSort_eq_of_perm (fun a b : Int => a ≤ b) h

theorem normalizeFilter_congr {f g : NFilter} (h : SimilarNFilter f g) :
    normalizeFilter f = normalizeFilter g := by
  obtain ⟨hd, hch, hcis, hcodes, hlevels⟩ := h
  rcases f with ⟨fd, fls, fcs, fch, fcis⟩
  rcases g with ⟨gd, gls, gcs, gch, gcis⟩
  simp only at hd hch hcis hcodes hlevels
  subst hd; subst hch; subst hcis
  rw [normalizeFilter_eq, normalizeFilter_eq,
    sortOptStr_congr hcodes, sortOptInt_congr hlevels]

theorem map_normalizeFilter_congr : ∀ {l₁ l₂ : List NFilter},
    List.Forall₂ SimilarNFilter l₁ l₂ →
    l₁.map normalizeFilter = l₂.map normalizeFilter
  | _, _, .nil => rfl
  | _, _, .cons h hs => by
    simp only [List.map_cons, normalizeFilter_congr h,
      map_normalizeFilter_congr hs]

/-- C3: permuting the order of elements inside the `codes` list or inside
the `levels` list of any validated filter does not change the output of
`normalize_dimension_filters`; stated for whole filter lists related
pointwise by `SimilarNFilter` (same `dimension` and flags, `codes` and
`levels` permuted), which covers in particular a single filter with
`codes = ["b", "a"]` versus `codes = ["a", "b"]` and `levels = [2, 1]`
versus `levels = [1, 2]`. -/
theorem normalize_internal_order_invariance_c3 {l₁ l₂ : List NFilter}
    (h : List.Forall₂ SimilarNFilter l₁ l₂) :
    CacheManager.normalize_dimension_filters l₁ =
      CacheManager.normalize_dimension_filters l₂ := by
  unfold CacheManager.normalize_dimension_filters
  rw [map_normalizeFilter_congr h]

theorem normalize_internal_order_invariance_c3_witness :
    List.Forall₂ SimilarNFilter
        [⟨"d1", some [2, 1], some ["b", "a"], none, none⟩]
        [⟨"d1", some [1, 2], some ["a", "b"], none, none⟩] ∧
      CacheManager.normalize_dimension_filters
          [⟨"d1", some [2, 1], some ["b", "a"], none, none⟩] =
        CacheManager.normalize_dimension_filters
          [⟨"d1", some [1, 2], some ["a", "b"], none, none⟩] :=
  ⟨.cons (by decide) .nil,
    normalize_internal_order_invariance_c3 (.cons (by decide) .nil)⟩

theorem insertionSort_pair {α : Type} (r : α → α → Prop) [DecidableRel r]
    (x y : α) :
    List.insertionSort r [x, y] = if r x y then [x, y] else [y, x] := by
  simp [List.insertionSort, List.orderedInsert]

/-- C2: for any two validated filters `A` and `B` with distinct
`dimension` values, normalizing `[A, B]` and normalizing `[B, A]` yield
the same string. -/
theorem normalize_order_invariance_c2 (A B : NFilter)
    (h : A.dimension ≠ B.dimension) :
    CacheManager.normalize_dimension_filters [A, B] =
      CacheManager.normalize_dimension_filters [B, A] := by
  unfold CacheManager.normalize_dimension_filters
  simp only [List.map_cons, List.map_nil]
  rw [insertionSort_pair, insertionSort_pair]
  have hA := normalizeFilter_dimension A
  have hB := normalizeFilter_dimension B
  by_cases hab : filterLe (normalizeFilter A) (normalizeFilter B)
  · have hba : ¬ filterLe (normalizeFilter B) (normalizeFilter A) := by
      intro hba
      exact h (strLe_antisymm (by rwa [filterLe, hA, hB] at hab)
        (by rwa [filterLe, hA, hB] at hba))
    rw [if_pos hab, if_neg hba]
  · have hba : filterLe (normalizeFilter B) (normalizeFilter A) := by
      rcases strLe_total (normalizeFilter A).dimension
        (normalizeFilter B).dimension with hle | hle
      · exact absurd hle hab
      · exact hle
    rw [if_neg hab, if_pos hba]

theorem normalize_order_invariance_c2_witness :
    (NFilter.mk "d2" none (some ["X"]) none none).dimension ≠
        (NFilter.mk "d1" (some [1]) none none none).dimension ∧
      CacheManager.normalize_dimension_filters
          [⟨"d2", none, some ["X"], none, none⟩,
           ⟨"d1", some [1], none, none, none⟩] =
        CacheManager.normalize_dimension_filters
          [⟨"d1", some [1], none, none, none⟩,
           ⟨"d2", none, some ["X"], none, none⟩] :=
  ⟨by decide,
    normalize_order_invariance_c2 ⟨"d2", none, some ["X"], none, none⟩
      ⟨"d1", some [1], none, none, none⟩ (by decide)⟩

/-! Anchor evaluations of the normalizer against outputs of the original
Python implementation. -/

theorem normalize_anchor₁ :
    CacheManager.normalize_dimension_filters
        [⟨"d2", none, some ["b", "a"], none, none⟩,
         ⟨"d1", some [2, 1], none, some true, none⟩] =
      "[\x7b\"children\":true,\"dimension\":\"d1\",\"levels\":[1,2]\x7d,\x7b\"codes\":[\"a\",\"b\"],\"dimension\":\"d2\"\x7d]" := by
  decide

theorem normalize_anchor₂ :
    CacheManager.normalize_dimension_filters
        [⟨"d1", some [-3, 10, 2], some [], none, some false⟩] =
      "[\x7b\"children_include_self\":false,\"codes\":[],\"dimension\":\"d1\",\"levels\":[-3,2,10]\x7d]" := by
  decide

/-! Validator theorems. -/

theorem someShape_iff_exactlyOne (codes levels : List PyVal) (ch cis : Bool) :
    someShape codes levels ch cis ↔ exactlyOneShape codes levels ch cis := by
  unfold someShape exactlyOneShape shapeCodesOnly shapeLevelsOnly
    shapeCodesLevels shapeChildren shapeChildrenSelf
  generalize codes.length = c
  generalize levels.length = l
  cases ch <;> cases cis <;> simp <;> omega

/-- C4: for every filter dictionary whose `dimension` is a valid `d1..d7`
string and whose fields pass the type checks (`codes` a list, `levels` a
list of integers, both flags booleans), `validate_dimension_filter`
returns without error iff exactly one of the five recognised shapes
holds; when no shape holds it raises `InvalidInput` (`.error`), with the
dedicated nothing-provided message when `codes` and `levels` are empty
and both flags are false, and the generic combination message
otherwise. -/
theorem validate_shapes_c4 (fd : FilterDict) (d : String)
    (codes levels : List PyVal) (ch cis : Bool)
    (hdim : fd.dimension = some (.str d)) (hd : d ∈ valid_dimensions)
    (hcodes : fd.codes.getD (.list []) = .list codes)
    (hlevels : fd.levels.getD (.list []) = .list levels)
    (hlint : levels.all isIntInstance = true)
    (hch : fd.children.getD (.bool false) = .bool ch)
    (hcis : fd.children_include_self.getD (.bool false) = .bool cis) :
    (validate_dimension_filter fd = .ok () ↔
      exactlyOneShape codes levels ch cis) ∧
    (codes = [] → levels = [] → ch = false → cis = false →
      validate_dimension_filter fd = .error atLeastOneMessage) ∧
    (¬ someShape codes levels ch cis →
      ¬ (codes = [] ∧ levels = [] ∧ ch = false ∧ cis = false) →
      validate_dimension_filter fd = .error invalidCombinationMessage) := by
  have hvd : isValidDimension (.str d) = true := by
    simpa [isValidDimension] using hd
  simp only [validate_dimension_filter, hdim, hvd, hcodes, hlevels, hch, hcis,
    hlint, not_true, false_and, and_false, if_false, ite_false, Bool.not_true,
    not_false_iff]
  refine ⟨?_, ?_, ?_⟩
  · rw [← someShape_iff_exactlyOne]
    unfold someShape shapeCodesOnly shapeLevelsOnly shapeCodesLevels
      shapeChildren shapeChildrenSelf
    split_ifs with h1 h2 h3 h4 h5 h6
    · exact iff_of_true rfl (Or.inl h1)
    · exact iff_of_true rfl (Or.inr (Or.inl h2))
    · exact iff_of_true rfl (Or.inr (Or.inr (Or.inl h3)))
    · exact iff_of_true rfl (Or.inr (Or.inr (Or.inr (Or.inl h4))))
    · exact iff_of_true rfl (Or.inr (Or.inr (Or.inr (Or.inr h5))))
    · exact iff_of_false (fun h => by cases h)
        (fun hs => by rcases hs with h | h | h | h | h
                      exacts [h1 h, h2 h, h3 h, h4 h, h5 h])
    · exact iff_of_false (fun h => by cases h)
        (fun hs => by rcases hs with h | h | h | h | h
                      exacts [h1 h, h2 h, h3 h, h4 h, h5 h])
  · rintro rfl rfl rfl rfl; rfl
  · intro hns hne
    unfold someShape shapeCodesOnly shapeLevelsOnly shapeCodesLevels
      shapeChildren shapeChildrenSelf at hns
    simp only [not_or] at hns
    split_ifs with h1 h2 h3 h4 h5 h6
    · exact absurd h1 hns.1
    · exact absurd h2 hns.2.1
    · exact absurd h3 hns.2.2.1
    · exact absurd h4 hns.2.2.2.1
    · exact absurd h5 hns.2.2.2.2
    · exfalso
      refine hne ⟨?_, ?_, h6.2.2.1, h6.2.2.2⟩
      · exact List.length_eq_zero.mp h6.1
      · exact List.length_eq_zero.mp h6.2.1
    · rfl

theorem validate_shapes_c4_witness :
    validate_dimension_filter
        ⟨some (.str "d1"), none, none, none, none⟩ = .error atLeastOneMessage :=
  (validate_shapes_c4 ⟨some (.str "d1"), none, none, none, none⟩ "d1" [] []
      false false rfl (by decide) rfl rfl rfl rfl rfl).2.1 rfl rfl rfl rfl

/-- C5 counterexample: the claim says a `codes` list containing a
non-string makes `validate_dimension_filter` fail with `InvalidInput`,
but the source checks only `isinstance(codes, list)` and never the
element types, so the filter `dimension="d1"`, `codes=[1]` — whose single
`codes` element is an integer, not a string — validates without error. -/
theorem validate_codes_c5_counterexample :
    validate_dimension_filter
        ⟨some (.str "d1"), some (.list [.int 1]), none, none, none⟩ = .ok () ∧
      isStrInstance (.int 1) = false := by
  constructor <;> rfl

/-- C5 (amended): a `codes` value that is present but not a list (of any
element type) makes `validate_dimension_filter` fail with `InvalidInput`
and the message `'codes' must be a list`, provided the earlier `dimension`
checks pass; the element types of a `codes` list are not checked. -/
theorem validate_codes_amended_c5 (fd : FilterDict) (dv v : PyVal)
    (hdim : fd.dimension = some dv) (hvalid : isValidDimension dv = true)
    (hcodes : fd.codes = some v) (hnl : ∀ l, v ≠ .list l) :
    validate_dimension_filter fd = .error "'codes' must be a list" := by
  cases v with
  | list l => exact absurd rfl (hnl l)
  | str s =>
    simp only [validate_dimension_filter, hdim, hvalid, hcodes, not_true,
      if_false, ite_false, Bool.not_true, not_false_iff, Option.getD_some]
  | int n =>
    simp only [validate_dimension_filter, hdim, hvalid, hcodes, not_true,
      if_false, ite_false, Bool.not_true, not_false_iff, Option.getD_some]
  | bool b =>
    simp only [validate_dimension_filter, hdim, hvalid, hcodes, not_true,
      if_false, ite_false, Bool.not_true, not_false_iff, Option.getD_some]
  | none_ =>
    simp only [validate_dimension_filter, hdim, hvalid, hcodes, not_true,
      if_false, ite_false, Bool.not_true, not_false_iff, Option.getD_some]

theorem validate_codes_amended_c5_witness :
    validate_dimension_filter
        ⟨some (.str "d1"), some (.str "x"), none, none, none⟩ =
      .error "'codes' must be a list" :=
  validate_codes_amended_c5 ⟨some (.str "d1"), some (.str "x"), none, none, none⟩
    (.str "d1") (.str "x") rfl (by decide) rfl fun l h => PyVal.noConfusion h

/-! Cache store theorems. -/

theorem FS.pathExists_of_fileAt {fs : FS} {p : List String} {c : String}
    (h : fs.fileAt p = some c) : fs.pathExists p = true := by
  simp [FS.pathExists, h]

/-- C6: for every key, return format and api format — and for every
filesystem state, injected I/O fault and behaviour of the JSON and
dataframe parsers — `read` never raises: it always returns `.ok`; it
returns absent (`none`) when no file or directory exists at the resolved
path, when the content read fails (I/O fault or a directory at the
path), when the JSON branch's deserialization fails, and when the
dataframe branch's tabular parse fails. -/
theorem read_never_raises_c6 {J D : Type} (jsonLoads : String → Except String J)
    (readCsvDf readParquetDf : String → Except String D)
    (dropNullCols : D → D) (fs : FS) (o : ReadOracle)
    (cache_key return_format : String) (api_format : Option String) :
    (∃ v, CacheManager.read jsonLoads readCsvDf readParquetDf dropNullCols
        fs o cache_key return_format api_format = .ok v) ∧
    (fs.pathExists (cache_path cache_key (resolveExt return_format api_format)) =
        false →
      CacheManager.read jsonLoads readCsvDf readParquetDf dropNullCols
        fs o cache_key return_format api_format = .ok none) ∧
    (o.readFails = true →
      CacheManager.read jsonLoads readCsvDf readParquetDf dropNullCols
        fs o cache_key return_format api_format = .ok none) ∧
    (∀ c e, return_format = "json" →
      fs.fileAt (cache_path cache_key (resolveExt return_format api_format)) =
        some c →
      o.readFails = false → jsonLoads c = .error e →
      CacheManager.read jsonLoads readCsvDf readParquetDf dropNullCols
        fs o cache_key return_format api_format = .ok none) ∧
    (∀ c e₁ e₂, return_format = "dataframe" →
      fs.fileAt (cache_path cache_key (resolveExt return_format api_format)) =
        some c →
      o.readFails = false → readCsvDf c = .error e₁ →
      readParquetDf c = .error e₂ →
      CacheManager.read jsonLoads readCsvDf readParquetDf dropNullCols
        fs o cache_key return_format api_format = .ok none) := by
  refine ⟨?_, ?_, ?_, ?_, ?_⟩
  · unfold CacheManager.read
    by_cases hp : fs.pathExists
        (cache_path cache_key (resolveExt return_format api_format)) = true <;>
      simp only [hp, not_true, not_false_iff, if_true, if_false,
        Bool.not_eq_true] <;>
      first
        | (split_ifs <;> exact ⟨_, rfl⟩)
        | exact ⟨_, rfl⟩
  · intro h
    simp [CacheManager.read, h, Except.bind]
  · intro h
    simp [CacheManager.read, h, Except.bind]
  · intro c e hrf hfile hof hjson
    subst hrf
    simp [CacheManager.read, FS.pathExists_of_fileAt hfile, hfile, hof, hjson,
      Except.bind]
  · intro c e₁ e₂ hrf hfile hof hcsv hparquet
    subst hrf
    by_cases hpq :
        (match api_format with | some s => s | none => "").toLower = "parquet" <;>
      simp [CacheManager.read, FS.pathExists_of_fileAt hfile, hfile, hof, hcsv,
        hparquet, Except.bind, hpq]

theorem read_never_raises_c6_witness :
    CacheManager.read (J := Unit) (D := Unit) (fun _ => .error "malformed")
        (fun _ => .error "malformed") (fun _ => .error "malformed") id
        ⟨true, [], []⟩ ⟨false⟩ "deadbeef" "dataframe" (some "parquet") =
      .ok none :=
  (read_never_raises_c6 (fun _ => .error "malformed") (fun _ => .error "malformed")
      (fun _ => .error "malformed") id ⟨true, [], []⟩ ⟨false⟩ "deadbeef"
      "dataframe" (some "parquet")).2.1 (by decide)

/-- C10: for every key and api format, `read` called with a return
format outside `csv`, `json`, `parquet`, `dataframe` returns absent
(`none`) — in particular even when a file exists at the resolved cache
path, since the statement holds for every filesystem state. -/
theorem read_unknown_format_c10 {J D : Type} (jsonLoads : String → Except String J)
    (readCsvDf readParquetDf : String → Except String D)
    (dropNullCols : D → D) (fs : FS) (o : ReadOracle)
    (cache_key return_format : String) (api_format : Option String)
    (h : return_format ∉ (["csv", "json", "parquet", "dataframe"] : List String)) :
    CacheManager.read jsonLoads readCsvDf readParquetDf dropNullCols
      fs o cache_key return_format api_format = .ok none := by
  simp only [List.mem_cons, List.not_mem_nil, or_false, not_or] at h
  obtain ⟨h1, h2, h3, h4⟩ := h
  simp [CacheManager.read, h1, h2, h3, h4, Except.bind]

theorem read_unknown_format_c10_witness :
    ("xml" ∉ (["csv", "json", "parquet", "dataframe"] : List String)) ∧
      FS.pathExists ⟨true, [(["k.xml"], "data")], []⟩ ["k.xml"] = true ∧
      CacheManager.read (J := Unit) (D := Unit) (fun _ => .error "e")
          (fun _ => .error "e") (fun _ => .error "e") id
          ⟨true, [(["k.xml"], "data")], []⟩ ⟨false⟩ "k" "xml" none = .ok none :=
  ⟨by decide, by decide,
    read_unknown_format_c10 (fun _ => .error "e") (fun _ => .error "e")
      (fun _ => .error "e") id ⟨true, [(["k.xml"], "data")], []⟩ ⟨false⟩
      "k" "xml" none (by decide)⟩

/-- C7: for every key, format, payload, filesystem state and injected
fault (directory creation or file writing), `write` returns normally:
the one `try/except` swallows every failure (after logging at debug
severity, which has no observable effect), so the caller always receives
`.ok`. -/
theorem write_never_raises_c7 (fs : FS) (o : WriteOracle)
    (cache_key api_format content : String) :
    ∃ fs', CacheManager.write fs o cache_key api_format content = .ok fs' := by
  rcases o with ⟨mk, wf⟩
  cases mk <;> cases wf <;> exact ⟨_, rfl⟩

theorem unlinkPass_spec (o : ClearOracle) :
    ∀ (files : List (List String × String)) (acc : List (List String × String))
      (n : Nat),
      files.foldl
          (fun acc e =>
            if o.unlinkFails e.1 then (acc.1 ++ [e], acc.2)
            else (acc.1, acc.2 + 1))
          (acc, n) =
        (acc ++ files.filter (fun e => o.unlinkFails e.1),
          n + (files.filter fun e => !(o.unlinkFails e.1)).length)
  | [], acc, n => by simp
  | e :: rest, acc, n => by
    by_cases hf : o.unlinkFails e.1
    · simp [hf, unlinkPass_spec o rest (acc ++ [e]) n]
    · simp [hf, unlinkPass_spec o rest acc (n + 1)]
      omega

theorem unlinkPass_eq (o : ClearOracle) (files : List (List String × String)) :
    unlinkPass o files =
      (files.filter (fun e => o.unlinkFails e.1),
        (files.filter fun e => !(o.unlinkFails e.1)).length) := by
  unfold unlinkPass
  simpa using unlinkPass_spec o files [] 0

theorem write_success_eq (fs : FS) (cache_key api_format content : String) :
    CacheManager.write fs ⟨false, false⟩ cache_key api_format content =
      .ok (FS.putFile { fs with rootExists := true }
        (cache_path cache_key api_format) content) := rfl

theorem upsertFile_fresh (files : List (List String × String))
    (p : List String) (c : String) (h : ∀ e ∈ files, e.1 ≠ p) :
    upsertFile files p c = files ++ [(p, c)] := by
  induction files with
  | nil => rfl
  | cons e rest ih =>
    have he : (e.1 == p) = false := by
      simpa using h e (List.mem_cons_self e rest)
    simp only [upsertFile, he, Bool.false_eq_true, if_false, List.cons_append,
      List.cons.injEq, true_and]
    exact ih fun e' he' => h e' (List.mem_cons_of_mem e he')

theorem writeAll_rootExists_mono : ∀ (ws : List (String × String × String))
    (fs : FS), fs.rootExists = true → (writeAll fs ws).rootExists = true
  | [], fs, h => h
  | w :: ws, fs, h => by
    simp only [writeAll, List.foldl_cons]
    exact writeAll_rootExists_mono ws _ rfl

theorem writeAll_cons_rootExists (fs : FS) (w : String × String × String)
    (ws : List (String × String × String)) :
    (writeAll fs (w :: ws)).rootExists = true := by
  simp only [writeAll, List.foldl_cons]
  exact writeAll_rootExists_mono ws _ rfl

theorem writeAll_files : ∀ (ws : List (String × String × String)) (fs : FS),
    (fs.files.map Prod.fst ++ ws.map writePath).Nodup →
    (writeAll fs ws).files =
      fs.files ++ ws.map fun w => (writePath w, w.2.2)
  | [], fs, _ => by simp [writeAll]
  | w :: ws, fs, h => by
    have hfresh : ∀ e ∈ fs.files, e.1 ≠ writePath w := by
      intro e he hep
      have hd := (List.nodup_append.mp h).2.2
      exact hd (List.mem_map_of_mem Prod.fst he)
        (by rw [hep]; exact List.mem_cons_self _ _)
    have hfiles₁ : (FS.putFile { fs with rootExists := true }
        (cache_path w.1 w.2.1) w.2.2).files =
        fs.files ++ [(writePath w, w.2.2)] := by
      simpa [FS.putFile, writePath] using
        upsertFile_fresh fs.files (cache_path w.1 w.2.1) w.2.2 hfresh
    have hn : ((FS.putFile { fs with rootExists := true }
        (cache_path w.1 w.2.1) w.2.2).files.map Prod.fst ++
          ws.map writePath).Nodup := by
      rw [hfiles₁]
      simp only [List.map_append, List.map_cons, List.map_nil,
        List.append_assoc, List.singleton_append]
      simpa using h
    have hstep : writeAll fs (w :: ws) =
        writeAll (FS.putFile { fs with rootExists := true }
          (cache_path w.1 w.2.1) w.2.2) ws := by
      simp only [writeAll, List.foldl_cons]; rfl
    rw [hstep, writeAll_files ws _ hn, hfiles₁]
    simp

theorem clear_count_eq (fs : FS) (o : ClearOracle)
    (hroot : fs.rootExists = true) :
    (CacheManager.clear fs o).2 =
      (fs.files.filter fun e => !(o.unlinkFails e.1)).length := by
  simp [CacheManager.clear, clearImpl, hroot, unlinkPass_eq]

theorem clear_files_eq (fs : FS) (o : ClearOracle)
    (hroot : fs.rootExists = true) :
    (CacheManager.clear fs o).1.files =
      fs.files.filter fun e => o.unlinkFails e.1 := by
  simp [CacheManager.clear, clearImpl, hroot, unlinkPass_eq]

/-- Injectivity of the composed cache file name in the key, for the
declared wire formats (all dot-free): `k1.f1 = k2.f2` with `f1`, `f2`
among `csv`, `json`, `parquet` forces `k1 = k2`. -/
theorem cache_path_key_inj (k1 k2 f1 f2 : String)
    (h1 : f1 ∈ (["csv", "json", "parquet"] : List String))
    (h2 : f2 ∈ (["csv", "json", "parquet"] : List String))
    (h : cache_path k1 f1 = cache_path k2 f2) : k1 = k2 := by
  have hs : k1 ++ "." ++ f1 = k2 ++ "." ++ f2 := by
    simpa [cache_path] using h
  fin_cases h1 <;> fin_cases h2 <;>
    first
      | exact congrArg String.mk
          (List.append_cancel_right (List.append_cancel_right
            (by simpa only [String.data_append] using congrArg String.data hs)))
      | (exfalso
         have hd := congrArg String.data hs
         simp only [String.data_append] at hd
         have hr := congrArg List.reverse hd
         simp at hr)

/-- Distinct keys with wire formats among `csv`, `json`, `parquet`
compose pairwise distinct cache file paths. -/
theorem writePath_nodup {ws : List (String × String × String)}
    (hfmt : ∀ w ∈ ws, w.2.1 ∈ (["csv", "json", "parquet"] : List String))
    (hkeys : (ws.map fun w => w.1).Nodup) : (ws.map writePath).Nodup := by
  have h1 : ws.Pairwise fun a b => a.1 ≠ b.1 := by
    rw [List.Nodup, List.pairwise_map] at hkeys; exact hkeys
  have h2 : ws.Pairwise fun a b => writePath a ≠ writePath b := by
    refine h1.imp_of_mem ?_
    intro a b ha hb hne heq
    exact hne (cache_path_key_inj a.1 b.1 a.2.1 b.2.1 (hfmt a ha) (hfmt b hb) heq)
  rw [List.Nodup, List.pairwise_map]; exact h2

/-- Boundary of the distinct-keys guarantee: with an extension that
itself contains a dot — which the declared wire formats never do — two
distinct keys can compose the same file name, so the second write
overwrites the first and `clear` then deletes and counts one file. -/
theorem clear_dotted_format_boundary :
    ("a" : String) ≠ "a.x" ∧
      (CacheManager.clear
          (writeAll ⟨true, [], []⟩ [("a", "x.csv", "p1"), ("a.x", "csv", "p2")])
          noFailClear).2 = 1 := by
  constructor
  · decide
  · rfl

/-- C8: `clear` returns 0 without raising when the cache root does not
exist or when it holds no regular file; after N successful writes under
N distinct keys (with the declared wire formats `csv`, `json`,
`parquet`), starting from a cache with no regular files, `clear` with no
unlink faults returns N and leaves no regular file under the root; and
for every state and fault pattern the returned count is the number of
regular files successfully deleted — directories never contribute to
it. -/
theorem clear_c8 :
    (∀ (fs : FS) (o : ClearOracle), fs.rootExists = false →
      CacheManager.clear fs o = (fs, 0)) ∧
    (∀ (fs : FS) (o : ClearOracle), fs.files = [] →
      (CacheManager.clear fs o).2 = 0) ∧
    (∀ (fs : FS) (ws : List (String × String × String)), fs.files = [] →
      (∀ w ∈ ws, w.2.1 ∈ (["csv", "json", "parquet"] : List String)) →
      (ws.map fun w => w.1).Nodup →
      (CacheManager.clear (writeAll fs ws) noFailClear).2 = ws.length ∧
      (CacheManager.clear (writeAll fs ws) noFailClear).1.files = []) ∧
    (∀ (fs : FS) (o : ClearOracle), fs.rootExists = true →
      (CacheManager.clear fs o).2 =
        (fs.files.filter fun e => !(o.unlinkFails e.1)).length) := by
  refine ⟨?_, ?_, ?_, ?_⟩
  · intro fs o h
    simp [CacheManager.clear, clearImpl, h]
  · intro fs o h
    by_cases hr : fs.rootExists
    · simp [CacheManager.clear, clearImpl, hr, h, unlinkPass_eq]
    · simp [CacheManager.clear, clearImpl, Bool.eq_false_iff.mpr hr]
  · intro fs ws hfiles hfmt hkeys
    have hnodup : (ws.map writePath).Nodup := writePath_nodup hfmt hkeys
    have hfl : (writeAll fs ws).files =
        ws.map fun w => (writePath w, w.2.2) := by
      have := writeAll_files ws fs (by simp [hfiles, hnodup])
      simpa [hfiles] using this
    rcases ws with _ | ⟨w, ws'⟩
    · constructor
      · by_cases hr : fs.rootExists
        · simp [writeAll, CacheManager.clear, clearImpl, hr, hfiles,
            unlinkPass_eq]
        · simp [writeAll, CacheManager.clear, clearImpl,
            Bool.eq_false_iff.mpr hr, hfiles]
      · by_cases hr : fs.rootExists
        · simp [writeAll, CacheManager.clear, clearImpl, hr, hfiles,
            unlinkPass_eq]
        · simp [writeAll, CacheManager.clear, clearImpl,
            Bool.eq_false_iff.mpr hr, hfiles]
    · have hroot := writeAll_cons_rootExists fs w ws'
      constructor
      · rw [clear_count_eq _ _ hroot, hfl]
        simp [noFailClear]
      · rw [clear_files_eq _ _ hroot, hfl]
        simp [noFailClear]
  · intro fs o h
    exact clear_count_eq fs o h

theorem clear_c8_witness :
    ((([("k1", "csv", "a"), ("k2", "csv", "b")] :
        List (String × String × String)).map fun w => w.1).Nodup) ∧
      (CacheManager.clear
          (writeAll ⟨false, [], []⟩ [("k1", "csv", "a"), ("k2", "csv", "b")])
          noFailClear).2 = 2 ∧
      (CacheManager.clear
          (writeAll ⟨false, [], []⟩ [("k1", "csv", "a"), ("k2", "csv", "b")])
          noFailClear).1.files = [] :=
  ⟨by decide,
    (clear_c8.2.2.1 ⟨false, [], []⟩
        [("k1", "csv", "a"), ("k2", "csv", "b")] rfl (by decide) (by decide)).1,
    (clear_c8.2.2.1 ⟨false, [], []⟩
        [("k1", "csv", "a"), ("k2", "csv", "b")] rfl (by decide) (by decide)).2⟩

/-! Frame theorems of the heap-level normalizer: every operation the
function performs either allocates at a fresh address or stores to an
address it allocated itself, so all pre-existing addresses keep their
objects. -/

theorem allocH_next (h : Heap) (v : PyObj) : (allocH h v).next = h.next + 1 :=
  rfl

theorem allocH_get_lt (h : Heap) (v : PyObj) (a : Nat) (ha : a < h.next) :
    (allocH h v).get a = h.get a := by
  have hne : (h.next == a) = false := by simp; omega
  simp [allocH, Heap.get, List.find?, hne]

theorem setObj_next (h : Heap) (a : Nat) (v : PyObj) :
    (h.setObj a v).next = h.next := rfl

theorem find?_setEntry (l : List (Nat × PyObj)) (a b : Nat) (v : PyObj)
    (hne : b ≠ a) :
    ((l.map fun e => if e.1 == a then (a, v) else e).find? fun e => e.1 == b) =
      l.find? fun e => e.1 == b := by
  induction l with
  | nil => rfl
  | cons e rest ih =>
    by_cases hea : e.1 = a
    · have h1 : (e.1 == a) = true := by simp [hea]
      have h2 : (a == b) = false := by simp; omega
      have h3 : (e.1 == b) = false := by simp [hea]; omega
      simp only [List.map_cons, h1, if_true, List.find?, h2, h3]
      exact ih
    · have h1 : (e.1 == a) = false := by simp [hea]
      by_cases heb : e.1 = b
      · have h2 : (e.1 == b) = true := by simp [heb]
        simp only [List.map_cons, h1, Bool.false_eq_true, if_false, List.find?,
          h2]
      · have h2 : (e.1 == b) = false := by simp [heb]
        simp only [List.map_cons, h1, Bool.false_eq_true, if_false, List.find?,
          h2]
        exact ih

theorem setObj_get_ne (h : Heap) (a b : Nat) (v : PyObj) (hne : b ≠ a) :
    (h.setObj a v).get b = h.get b := by
  simp only [Heap.setObj, Heap.get]
  rw [find?_setEntry h.mem a b v hne]

theorem dictSet_next (h : Heap) (a : Nat) (k : String) (v : Nat) :
    (dictSet h a k v).next = h.next := by
  unfold dictSet
  split <;> rfl

theorem dictSet_get_ne (h : Heap) (a b : Nat) (k : String) (v : Nat)
    (hne : b ≠ a) : (dictSet h a k v).get b = h.get b := by
  unfold dictSet
  split
  · exact setObj_get_ne _ _ _ _ hne
  · rfl

theorem normSortStep_next (key : String) (sortRefs : Heap → List Nat → List Nat)
    (h : Heap) (nref : Nat) : h.next ≤ (normSortStep key sortRefs h nref).next := by
  unfold normSortStep
  split
  · split
    · rw [dictSet_next, allocH_next]; omega
    · exact Nat.le_refl _
  · exact Nat.le_refl _

theorem normSortStep_get (key : String) (sortRefs : Heap → List Nat → List Nat)
    (h : Heap) (nref : Nat) (a : Nat) (hne : a ≠ nref) (hlt : a < h.next) :
    (normSortStep key sortRefs h nref).get a = h.get a := by
  unfold normSortStep
  split
  · split
    · rw [dictSet_get_ne _ _ _ _ _ hne, allocH_get_lt _ _ _ hlt]
    · rfl
  · rfl

theorem normHeapFilter_next (h : Heap) (fr : Nat) :
    h.next ≤ (normHeapFilter h fr).1.next := by
  unfold normHeapFilter
  dsimp only
  rw [allocH_next]
  have h1 := normSortStep_next "codes" sortRefsByStr
    (allocH h (.odict (dictEntries h fr))) h.next
  have h2 := normSortStep_next "levels" sortRefsByInt
    (normSortStep "codes" sortRefsByStr (allocH h (.odict (dictEntries h fr)))
      h.next) h.next
  rw [allocH_next] at h1
  omega

theorem normHeapFilter_get (h : Heap) (fr : Nat) (a : Nat) (ha : a < h.next) :
    (normHeapFilter h fr).1.get a = h.get a := by
  unfold normHeapFilter
  dsimp only
  have hne : a ≠ h.next := by omega
  have h1 : a < (allocH h (.odict (dictEntries h fr))).next := by
    rw [allocH_next]; omega
  have h2 : a < (normSortStep "codes" sortRefsByStr
      (allocH h (.odict (dictEntries h fr))) h.next).next :=
    Nat.lt_of_lt_of_le h1 (normSortStep_next _ _ _ _)
  have h3 : a < (normSortStep "levels" sortRefsByInt
      (normSortStep "codes" sortRefsByStr (allocH h (.odict (dictEntries h fr)))
        h.next) h.next).next :=
    Nat.lt_of_lt_of_le h2 (normSortStep_next _ _ _ _)
  rw [allocH_get_lt _ _ _ h3, normSortStep_get _ _ _ _ _ hne h2,
    normSortStep_get _ _ _ _ _ hne h1, allocH_get_lt _ _ _ ha]

theorem normAll_frame : ∀ (frs : List Nat) (h : Heap) (acc : List Nat),
    h.next ≤ (frs.foldl normStep (h, acc)).1.next ∧
    ∀ a, a < h.next → (frs.foldl normStep (h, acc)).1.get a = h.get a
  | [], h, acc => ⟨Nat.le_refl _, fun _ _ => rfl⟩
  | fr :: frs, h, acc => by
    simp only [List.foldl_cons]
    have hstep : normStep (h, acc) fr =
        ((normHeapFilter h fr).1, acc ++ [(normHeapFilter h fr).2]) := rfl
    rw [hstep]
    obtain ⟨hn, hg⟩ :=
      normAll_frame frs (normHeapFilter h fr).1 (acc ++ [(normHeapFilter h fr).2])
    refine ⟨Nat.le_trans (normHeapFilter_next h fr) hn, fun a ha => ?_⟩
    have ha' : a < (normHeapFilter h fr).1.next :=
      Nat.lt_of_lt_of_le ha (normHeapFilter_next h fr)
    rw [hg a ha', normHeapFilter_get h fr a ha]

theorem finishNorm_get (h : Heap) (frs : List Nat) (a : Nat) (ha : a < h.next) :
    (finishNorm h frs).1.get a = h.get a := by
  unfold finishNorm normAllFilters
  exact (normAll_frame frs h []).2 a ha

/-- C9: `normalize_dimension_filters` does not mutate its input: in the
heap embedding, every address allocated before the call — in particular
the input list, each filter dictionary and the `codes` and `levels`
lists inside them — holds the same object after the call as before it.
The source only mutates the fresh `normalized` copies
(`normalized["codes"] = sorted(...)`, `normalized["levels"] =
sorted(...)`); `dict.copy()`, `list.copy()` and `sorted()` allocate new
objects. -/
theorem normalize_no_mutation_c9 (h : Heap) (input : Nat) (a : Nat)
    (ha : a < h.next) :
    (normalize_dimension_filters_heap h input).1.get a = h.get a := by
  unfold normalize_dimension_filters_heap
  split
  · exact finishNorm_get h _ a ha
  · rw [finishNorm_get _ _ a (by rw [allocH_next]; omega)]
    exact allocH_get_lt _ _ _ ha
  · exact finishNorm_get h _ a ha

theorem normalize_no_mutation_c9_witness :
    (3 < (Heap.mk
        [(0, .ostr "d1"), (1, .ostr "b"), (2, .ostr "a"), (3, .olist [1, 2]),
         (4, .odict [("dimension", 0), ("codes", 3)])] 5).next) ∧
      (normalize_dimension_filters_heap
          (Heap.mk
            [(0, .ostr "d1"), (1, .ostr "b"), (2, .ostr "a"), (3, .olist [1, 2]),
             (4, .odict [("dimension", 0), ("codes", 3)])] 5) 4).1.get 3 =
        (Heap.mk
          [(0, .ostr "d1"), (1, .ostr "b"), (2, .ostr "a"), (3, .olist [1, 2]),
           (4, .odict [("dimension", 0), ("codes", 3)])] 5).get 3 :=
  ⟨by decide,
    normalize_no_mutation_c9
      (Heap.mk
        [(0, .ostr "d1"), (1, .ostr "b"), (2, .ostr "a"), (3, .olist [1, 2]),
         (4, .odict [("dimension", 0), ("codes", 3)])] 5) 4 3 (by decide)⟩

/-- Agreement anchor between the two embeddings of the normalizer: on a
heap holding the validated filter `dimension="d1"`, `codes=["b","a"]`,
the heap-level function and the pure function produce the same JSON
string. -/
theorem heap_pure_agreement_anchor :
    (normalize_dimension_filters_heap
        (Heap.mk
          [(0, .ostr "d1"), (1, .ostr "b"), (2, .ostr "a"), (3, .olist [1, 2]),
           (4, .odict [("dimension", 0), ("codes", 3)])] 5) 4).2 =
      CacheManager.normalize_dimension_filters
        [⟨"d1", none, some ["b", "a"], none, none⟩] := by
  decide

end Quantec
